import Mathlib

/-!
Verification of `src/restart_helper/restart_helper.c` (the CalibrationTracker
restart helper) against its natural-language specification.

The C program is embedded shallowly:
* C strings are NUL-free lists of characters (`CStr`).
* `fgets(buf, n, f)` is modelled at the character-stream level: the file is a
  list of characters (as delivered by the C runtime's text mode), and each
  call consumes up to `n - 1` characters, stopping after a newline; it fails
  (returns `none`, i.e. NULL) at end of file.
* The environment (the `APPDATA` variable, the readable files, and the success
  of `CreateProcessA`) is a record of oracles, so the whole of `main` becomes
  the pure function `runMain` / `exitCode`.
* Buffer sizes (`PARAMS_BUF_SIZE = 2048`, `CMD_BUF_SIZE = 4096`,
  `MAX_PATH = 260`) are carried faithfully: `strncpy`, `snprintf` and `fgets`
  truncate exactly where the C library does.
-/

namespace RestartHelper

/-- C strings are modelled as NUL-free lists of characters. -/
abbrev CStr := List Char

/-- `#define PARAMS_BUF_SIZE 2048` (restart_helper.c line 18). -/
def PARAMS_BUF_SIZE : Nat := 2048

/-- `#define CMD_BUF_SIZE 4096` (restart_helper.c line 19). -/
def CMD_BUF_SIZE : Nat := 4096

/-- Windows `MAX_PATH`, the size of `params_path_buf` and `work_dir`. -/
def MAX_PATH : Nat := 260

/-- `trim_crlf` (lines 21-24): walks the string and cuts it at the FIRST
carriage return or line feed it meets. -/
def trim_crlf : CStr → CStr
  | [] => []
  | c :: cs => if c = '\r' ∨ c = '\n' then [] else c :: trim_crlf cs

/-- The separator test of `dirname_inplace` (line 36): `/` or `\`. -/
def isSep (c : Char) : Bool := c == '/' || c == '\\'

/-- Index of the last separator of the string, mirroring the scan of
`dirname_inplace` (lines 34-37), which keeps a pointer to the last
separator seen. -/
def lastSep : CStr → Option Nat
  | [] => none
  | c :: cs =>
    match lastSep cs with
    | some i => some (i + 1)
    | none => if isSep c then some 0 else none

/-- `dirname_inplace` (lines 33-40): if a separator exists the string is cut
at the last one (`*last = '\0'`); otherwise it is returned unchanged. -/
def dirname_inplace (path : CStr) : CStr :=
  match lastSep path with
  | some i => path.take i
  | none => path

/-- The literal appended to `%APPDATA%` at line 29. -/
def DEFAULT_SUFFIX : CStr := "\\CalibrationTracker\\restart_params.txt".toList

/-- `default_params_path` (lines 26-31): `NULL` when `APPDATA` is unset;
otherwise `snprintf` into a `MAX_PATH`-byte buffer, hence truncation to
`MAX_PATH - 1` characters.  (`bufsiz < 32` is impossible: the buffer is
`MAX_PATH = 260` bytes.) -/
def default_params_path (appdata : Option CStr) : Option CStr :=
  match appdata with
  | none => none
  | some a => some ((a ++ DEFAULT_SUFFIX).take (MAX_PATH - 1))

/-- One `fgets(buf, n+1, f)` call on remaining file content: consume up to `n`
characters, stopping after a `'\n'`; return the characters read and the rest
of the stream. -/
def fgetsAux : Nat → CStr → CStr × CStr
  | 0, rest => ([], rest)
  | _ + 1, [] => ([], [])
  | n + 1, c :: cs =>
    if c = '\n' then ([c], cs)
    else (c :: (fgetsAux n cs).1, (fgetsAux n cs).2)

/-- `fgets(buf, PARAMS_BUF_SIZE, f)`: NULL (`none`) at end of file, otherwise
up to `PARAMS_BUF_SIZE - 1` characters. -/
def fgets (content : CStr) : Option (CStr × CStr) :=
  match content with
  | [] => none
  | c :: cs => some (fgetsAux (PARAMS_BUF_SIZE - 1) (c :: cs))

/-- Lines 67-72: two `fgets` calls (failing, i.e. returning 1, if either
fails) followed by `trim_crlf` on each line. -/
def readParams (content : CStr) : Option (CStr × CStr) :=
  match fgets content with
  | none => none
  | some (l1, rest) =>
    match fgets rest with
    | none => none
    | some (l2, _) => some (trim_crlf l1, trim_crlf l2)

/-- The ambient environment of one run: the `APPDATA` variable, the openable
files (path ↦ character stream delivered by the C runtime), and the
success oracle of `CreateProcessA` (exe, command line, working directory). -/
structure Env where
  appdata : Option CStr
  fs : CStr → Option CStr
  spawnOk : CStr → CStr → Option CStr → Bool

/-- Lines 49-51: `strncpy(exe_path, argv[1], sizeof exe_path - 1)` when
`argc >= 2`.  `argv` here is the argument vector after the program name. -/
def argExe : List CStr → CStr
  | a :: _ => a.take (PARAMS_BUF_SIZE - 1)
  | [] => []

/-- Lines 52-55: `strncpy(db_path, argv[2], ...)` when `argc >= 3`. -/
def argDb : List CStr → CStr
  | _ :: b :: _ => b.take (PARAMS_BUF_SIZE - 1)
  | _ => []

/-- Line 61: the parameter-file path is `argv[1]` when `argc >= 2`, else the
default path under `APPDATA`. -/
def paramPath (env : Env) (argv : List CStr) : Option CStr :=
  match argv with
  | a :: _ => some a
  | [] => default_params_path env.appdata

/-- Lines 49-73: resolution of `exe_path` and `db_path`.  Explicit-argument
mode whenever the copied `argv[1]` is non-empty; otherwise file mode:
resolve a path, open it, read and trim two lines.  `none` is `return 1`. -/
def resolveParams (env : Env) (argv : List CStr) : Option (CStr × CStr) :=
  if argExe argv ≠ [] then some (argExe argv, argDb argv)
  else
    match paramPath env argv with
    | none => none
    | some p =>
      match env.fs p with
      | none => none
      | some content => readParams content

/-- Lines 77-80: `work_dir` is `exe_path` truncated by `strncpy` into a
`MAX_PATH`-byte buffer, then `dirname_inplace`. -/
def deriveWorkDir (exe : CStr) : CStr :=
  dirname_inplace (exe.take (MAX_PATH - 1))

/-- Line 98: `work_dir[0] ? work_dir : NULL` — the working directory actually
passed to `CreateProcessA`. -/
def wdOpt (exe : CStr) : Option CStr :=
  if deriveWorkDir exe = [] then none else some (deriveWorkDir exe)

/-- Lines 83-87: `snprintf(cmdline, sizeof cmdline, ...)` — the quoted command
line, truncated to the `CMD_BUF_SIZE`-byte buffer. -/
def buildCmdline (exe db : CStr) : CStr :=
  if db ≠ [] then
    ('"' :: exe ++ '"' :: ' ' :: '-' :: '-' :: 'd' :: 'b' :: ' ' :: '"' :: db ++ ['"']).take
      (CMD_BUF_SIZE - 1)
  else
    ('"' :: exe ++ ['"']).take (CMD_BUF_SIZE - 1)

/-- The observable result of one run: exit with code 1 before any launch, or
a `CreateProcessA` call with the given application name, command line and
(optional) working directory. -/
inductive Outcome where
  | exitConfig : Outcome
  | launched (exe cmdline : CStr) (workDir : Option CStr) : Outcome
deriving DecidableEq

/-- Lines 77-99: the launch step performed once `exe_path` is non-empty. -/
def launchOf (exe db : CStr) : Outcome :=
  Outcome.launched exe (buildCmdline exe db) (wdOpt exe)

/-- `main` (lines 42-104) up to the `CreateProcessA` call: resolve the two
paths (exit 1 on failure), exit 1 if the executable path is empty (line 75),
otherwise launch. -/
def runMain (env : Env) (argv : List CStr) : Outcome :=
  match resolveParams env argv with
  | none => Outcome.exitConfig
  | some (exe, db) => if exe = [] then Outcome.exitConfig else launchOf exe db

/-- The process exit code: 1 on any configuration failure, else 1 exactly when
`CreateProcessA` fails (lines 92-104). -/
def exitCode (env : Env) (argv : List CStr) : Nat :=
  match runMain env argv with
  | Outcome.exitConfig => 1
  | Outcome.launched exe cmd wd => if env.spawnOk exe cmd wd then 0 else 1

/-- Modelled from the spec: "construct a process-launch command line: the
executable path quoted, followed by `--db` and the quoted secondary path if
`secondaryPath` is non-empty, omitted entirely otherwise" — with no buffer
truncation, as the spec states none. -/
def specCmdline (exe db : CStr) : CStr :=
  if db = [] then '"' :: exe ++ ['"']
  else '"' :: exe ++ '"' :: ' ' :: '-' :: '-' :: 'd' :: 'b' :: ' ' :: '"' :: db ++ ['"']

/-- Carriage return or line feed, as a Boolean predicate. -/
def crlfB (c : Char) : Bool := c == '\r' || c == '\n'

/-- Modelled from the spec: "strip trailing carriage-return/newline characters"
— remove exactly the maximal trailing run of CR/LF characters. -/
def stripTrailingCRLF (l : CStr) : CStr :=
  ((l.reverse).dropWhile crlfB).reverse

/-- Negation of `isSep`, the predicate kept by `stripLastComponent`. -/
def notSep (c : Char) : Bool := !(isSep c)

/-- Modelled from the spec: "strip the trailing path segment (last component
after the final path separator, either forward- or back-slash), leaving the
containing directory" — drop the maximal separator-free suffix and the final
separator itself. -/
def stripLastComponent (exe : CStr) : CStr :=
  (((exe.reverse).dropWhile notSep).reverse).dropLast

/-- The file content holds fewer than two lines: no newline occurs strictly
before its final character (so a second `fgets` has nothing left to read). -/
def noInnerNewline : CStr → Bool
  | [] => true
  | [_] => true
  | c :: c2 :: cs => (c != '\n') && noInnerNewline (c2 :: cs)

/-! ### Helper lemmas -/

theorem trim_crlf_of_forall (l : CStr) (h : ∀ c ∈ l, c ≠ '\r' ∧ c ≠ '\n') :
    trim_crlf l = l := by
  induction l with
  | nil => rfl
  | cons c cs ih =>
    have hc := h c (List.mem_cons_self c cs)
    simp only [trim_crlf, if_neg (fun hor => Or.elim hor hc.1 hc.2)]
    rw [ih (fun x hx => h x (List.mem_cons_of_mem c hx))]

theorem trim_crlf_append (l s : CStr) (hl : ∀ c ∈ l, c ≠ '\r' ∧ c ≠ '\n')
    (hs : ∀ c ∈ s, c = '\r' ∨ c = '\n') : trim_crlf (l ++ s) = l := by
  induction l with
  | nil =>
    cases s with
    | nil => rfl
    | cons c cs =>
      simp only [List.nil_append, trim_crlf, if_pos (hs c (List.mem_cons_self c cs))]
  | cons c cs ih =>
    have hc := hl c (List.mem_cons_self c cs)
    simp only [List.cons_append, trim_crlf, if_neg (fun hor => Or.elim hor hc.1 hc.2)]
    exact congrArg (List.cons c) (ih (fun x hx => hl x (List.mem_cons_of_mem c hx)))

theorem trim_crlf_length_le (l : CStr) : (trim_crlf l).length ≤ l.length := by
  induction l with
  | nil => simp [trim_crlf]
  | cons c cs ih =>
    by_cases hc : c = '\r' ∨ c = '\n'
    · simp [trim_crlf, if_pos hc]
    · simp only [trim_crlf, if_neg hc, List.length_cons]
      exact Nat.succ_le_succ ih

theorem dropWhile_append_all (p : Char → Bool) (xs ys : CStr)
    (h : ∀ x ∈ xs, p x = true) :
    List.dropWhile p (xs ++ ys) = List.dropWhile p ys := by
  induction xs with
  | nil => rfl
  | cons a l ih =>
    simp only [List.cons_append, List.dropWhile_cons, if_pos (h a (List.mem_cons_self a l))]
    exact ih (fun x hx => h x (List.mem_cons_of_mem a hx))

theorem dropWhile_append_keep (p : Char → Bool) (xs ys : CStr) (x : Char)
    (hx : x ∈ xs) (hpx : p x = false) :
    List.dropWhile p (xs ++ ys) = List.dropWhile p xs ++ ys := by
  induction xs with
  | nil => cases hx
  | cons a l ih =>
    by_cases hpa : p a = true
    · rcases List.mem_cons.1 hx with rfl | hmem
      · rw [hpa] at hpx; cases hpx
      · simp only [List.cons_append, List.dropWhile_cons, if_pos hpa]
        exact ih hmem
    · simp only [List.cons_append, List.dropWhile_cons, if_neg hpa]

theorem dropWhile_ne_nil (p : Char → Bool) (xs : CStr) (x : Char)
    (hx : x ∈ xs) (hpx : p x = false) : List.dropWhile p xs ≠ [] := by
  induction xs with
  | nil => cases hx
  | cons a l ih =>
    by_cases hpa : p a = true
    · simp only [List.dropWhile_cons, if_pos hpa]
      rcases List.mem_cons.1 hx with rfl | hmem
      · rw [hpa] at hpx; cases hpx
      · exact ih hmem
    · simp [List.dropWhile_cons, hpa]

theorem dropLast_cons_of_ne (c : Char) (R : CStr) (h : R ≠ []) :
    (c :: R).dropLast = c :: R.dropLast := by
  cases R with
  | nil => exact absurd rfl h
  | cons a l => rfl

theorem lastSep_eq_none (l : CStr) (h : ∀ c ∈ l, isSep c = false) : lastSep l = none := by
  induction l with
  | nil => rfl
  | cons c cs ih =>
    have hcs := ih (fun x hx => h x (List.mem_cons_of_mem c hx))
    simp [lastSep, hcs, h c (List.mem_cons_self c cs)]

theorem lastSep_none_forall (l : CStr) (h : lastSep l = none) :
    ∀ c ∈ l, isSep c = false := by
  induction l with
  | nil => intro c hc; cases hc
  | cons c cs ih =>
    intro x hx
    rcases hcs : lastSep cs with _ | i
    · have hc : isSep c = false := by
        by_contra hc
        have hc' : isSep c = true := eq_true_of_ne_false hc
        rw [show lastSep (c :: cs) = some 0 by simp [lastSep, hcs, hc']] at h
        cases h
      rcases List.mem_cons.1 hx with rfl | hmem
      · exact hc
      · exact ih hcs x hmem
    · rw [show lastSep (c :: cs) = some (i + 1) by simp [lastSep, hcs]] at h
      cases h

theorem lastSep_cons_some (c : Char) (cs : CStr) (i : Nat) (h : lastSep cs = some i) :
    lastSep (c :: cs) = some (i + 1) := by
  simp [lastSep, h]

theorem any_lastSep_some (l : CStr) (h : l.any isSep = true) : ∃ i, lastSep l = some i := by
  rcases hl : lastSep l with _ | i
  · exfalso
    obtain ⟨x, hx, hsep⟩ := List.any_eq_true.1 h
    rw [lastSep_none_forall l hl x hx] at hsep
    cases hsep
  · exact ⟨i, rfl⟩

theorem fgetsAux_nil (n : Nat) : fgetsAux n [] = ([], []) := by
  cases n <;> rfl

theorem fgetsAux_fst_length (n : Nat) (l : CStr) : (fgetsAux n l).1.length ≤ n := by
  induction n generalizing l with
  | zero => simp [fgetsAux]
  | succ n ih =>
    cases l with
    | nil => simp [fgetsAux]
    | cons c cs =>
      by_cases hc : c = '\n'
      · simp [fgetsAux, if_pos hc]
      · simp only [fgetsAux, if_neg hc, List.length_cons]
        exact Nat.succ_le_succ (ih cs)

theorem fgetsAux_replicate (c : Char) (hc : ¬ c = '\n') (n m : Nat) :
    fgetsAux n (List.replicate m c) =
      (List.replicate (min n m) c, List.replicate (m - n) c) := by
  induction n generalizing m with
  | zero => simp [fgetsAux]
  | succ n ih =>
    cases m with
    | zero => simp [List.replicate, fgetsAux_nil]
    | succ m =>
      rw [List.replicate_succ]
      simp only [fgetsAux, if_neg hc, ih m]
      rw [Nat.succ_min_succ, List.replicate_succ, Nat.succ_sub_succ]

theorem fgetsAux_short (l : CStr) (n : Nat) (hlen : l.length ≤ n)
    (hnl : noInnerNewline l = true) : fgetsAux n l = (l, []) := by
  induction l generalizing n with
  | nil => exact fgetsAux_nil n
  | cons c cs ih =>
    cases n with
    | zero => simp at hlen
    | succ n =>
      cases cs with
      | nil =>
        by_cases hc : c = '\n'
        · subst hc; simp [fgetsAux]
        · simp [fgetsAux, if_neg hc, fgetsAux_nil]
      | cons c2 cs2 =>
        have hsplit : (c != '\n') = true ∧ noInnerNewline (c2 :: cs2) = true := by
          simpa [noInnerNewline, Bool.and_eq_true] using hnl
        have hc : ¬ c = '\n' := by simpa using hsplit.1
        have hlen' : (c2 :: cs2).length ≤ n := Nat.le_of_succ_le_succ (by simpa using hlen)
        simp only [fgetsAux, if_neg hc, ih n hlen' hsplit.2]

/-- The central working-directory fact: whenever the path holds a separator,
`dirname_inplace` computes exactly what the spec describes — the path with
its last component (and the final separator) removed. -/
theorem dirname_eq_strip (exe : CStr) (h : exe.any isSep = true) :
    dirname_inplace exe = stripLastComponent exe := by
  induction exe with
  | nil => cases h
  | cons c cs ih =>
    rcases hcs : cs.any isSep with _ | _
    · -- no separator in the tail, so `c` is the (only, hence last) separator
      have hc : isSep c = true := by
        rcases List.any_eq_true.1 h with ⟨x, hx, hsep⟩
        rcases List.mem_cons.1 hx with rfl | hmem
        · exact hsep
        · exact absurd hsep (List.any_eq_false.1 hcs x hmem)
      have hnone : lastSep cs = none :=
        lastSep_eq_none cs (fun x hx => Bool.eq_false_iff.2 (List.any_eq_false.1 hcs x hx))
      have hdir : dirname_inplace (c :: cs) = [] := by
        simp [dirname_inplace, lastSep, hnone, hc]
      have hall : ∀ x ∈ cs.reverse, notSep x = true := by
        intro x hx
        simp [notSep, Bool.eq_false_iff.2 (List.any_eq_false.1 hcs x (List.mem_reverse.1 hx))]
      have hstrip : stripLastComponent (c :: cs) = [] := by
        unfold stripLastComponent
        rw [List.reverse_cons, dropWhile_append_all notSep cs.reverse [c] hall]
        simp [List.dropWhile_cons, notSep, hc]
      rw [hdir, hstrip]
    · -- the tail holds a separator: both sides keep `c` and recurse
      obtain ⟨i, hi⟩ := any_lastSep_some cs hcs
      have hdir : dirname_inplace (c :: cs) = c :: dirname_inplace cs := by
        simp [dirname_inplace, lastSep_cons_some c cs i hi, hi, List.take_succ_cons]
      obtain ⟨x, hx, hsep⟩ := List.any_eq_true.1 hcs
      have hxrev : x ∈ cs.reverse := List.mem_reverse.2 hx
      have hnx : notSep x = false := by simp [notSep, hsep]
      have hne : List.dropWhile notSep cs.reverse ≠ [] :=
        dropWhile_ne_nil notSep cs.reverse x hxrev hnx
      have hstrip : stripLastComponent (c :: cs) = c :: stripLastComponent cs := by
        unfold stripLastComponent
        rw [List.reverse_cons, dropWhile_append_keep notSep cs.reverse [c] x hxrev hnx,
          List.reverse_append]
        simp only [List.reverse_cons, List.reverse_nil, List.nil_append, List.singleton_append]
        exact dropLast_cons_of_ne c _ (by simpa using hne)
      rw [hdir, hstrip, ih hcs]

/-! Equation lemmas stepping through `readParams` and `resolveParams`. -/

theorem readParams_none1 (content : CStr) (h : fgets content = none) :
    readParams content = none := by
  unfold readParams
  rw [h]

theorem readParams_none2 (content l1 r1 : CStr)
    (h1 : fgets content = some (l1, r1)) (h2 : fgets r1 = none) :
    readParams content = none := by
  unfold readParams
  rw [h1]
  show (match fgets r1 with
    | none => none
    | some (l2, _) => some (trim_crlf l1, trim_crlf l2)) = none
  rw [h2]

theorem readParams_some (content l1 r1 l2 r2 : CStr)
    (h1 : fgets content = some (l1, r1)) (h2 : fgets r1 = some (l2, r2)) :
    readParams content = some (trim_crlf l1, trim_crlf l2) := by
  unfold readParams
  rw [h1]
  show (match fgets r1 with
    | none => none
    | some (l2, _) => some (trim_crlf l1, trim_crlf l2)) =
    some (trim_crlf l1, trim_crlf l2)
  rw [h2]

theorem resolve_argmode (env : Env) (argv : List CStr) (hex : argExe argv ≠ []) :
    resolveParams env argv = some (argExe argv, argDb argv) := by
  unfold resolveParams
  rw [if_pos hex]

theorem resolve_pp_none (env : Env) (argv : List CStr) (hex : argExe argv = [])
    (hpp : paramPath env argv = none) : resolveParams env argv = none := by
  unfold resolveParams
  rw [if_neg (not_not_intro hex), hpp]

theorem resolve_fs_none (env : Env) (argv : List CStr) (p : CStr)
    (hex : argExe argv = []) (hpp : paramPath env argv = some p)
    (hfs : env.fs p = none) : resolveParams env argv = none := by
  unfold resolveParams
  rw [if_neg (not_not_intro hex), hpp]
  show (match env.fs p with
    | none => none
    | some content => readParams content) = none
  rw [hfs]

theorem resolve_file (env : Env) (argv : List CStr) (p content : CStr)
    (hex : argExe argv = []) (hpp : paramPath env argv = some p)
    (hfs : env.fs p = some content) :
    resolveParams env argv = readParams content := by
  unfold resolveParams
  rw [if_neg (not_not_intro hex), hpp]
  show (match env.fs p with
    | none => none
    | some content => readParams content) = readParams content
  rw [hfs]

/-! ### Claim theorems -/

/-- C1 (amended): for resolved paths `e`, `d` (each at most
`PARAMS_BUF_SIZE - 1 = 2047` characters) whose combined length lets the
quoted line fit the `CMD_BUF_SIZE = 4096`-byte buffer
(`|e| + |d| ≤ 4085`), the constructed command line equals `"e" --db "d"`
when `d` is non-empty and exactly `"e"` when `d` is empty; beyond that
bound `snprintf` truncates the line to 4095 characters. -/
theorem cmdline_eq_spec (e d : CStr) (he : e.length ≤ PARAMS_BUF_SIZE - 1)
    (hd : d.length ≤ PARAMS_BUF_SIZE - 1) (hsum : e.length + d.length ≤ 4085) :
    buildCmdline e d = specCmdline e d := by
  have he' : e.length ≤ 2047 := by simpa [PARAMS_BUF_SIZE] using he
  by_cases h : d = []
  · subst h
    unfold buildCmdline specCmdline
    rw [if_neg (not_not_intro rfl), if_pos rfl]
    refine List.take_of_length_le ?_
    simp only [List.length_cons, List.length_append, List.length_nil, CMD_BUF_SIZE]
    omega
  · unfold buildCmdline specCmdline
    rw [if_pos h, if_neg h]
    refine List.take_of_length_le ?_
    simp only [List.length_cons, List.length_append, List.length_nil, CMD_BUF_SIZE]
    omega

/-- C1 witness: with two short concrete paths the command line is exactly
the quoted `--db` form. -/
theorem cmdline_eq_spec_w :
    buildCmdline "C:\\App\\Foo.exe".toList "C:\\db.fdb".toList =
      specCmdline "C:\\App\\Foo.exe".toList "C:\\db.fdb".toList :=
  cmdline_eq_spec _ _ (by decide) (by decide) (by decide)

/-- C1 counterexample: with two maximal resolved paths (2047 characters each,
reachable from the command line), the quoted line would be 4104 characters,
so `snprintf` truncates it to 4095 and the claimed equality fails. -/
theorem cmdline_trunc_cex :
    buildCmdline (List.replicate 2047 'a') (List.replicate 2047 'b') ≠
      specCmdline (List.replicate 2047 'a') (List.replicate 2047 'b') := by
  intro hEq
  have hb : (List.replicate 2047 'b' : CStr) ≠ [] := by
    intro h
    have hlen := congrArg List.length h
    rw [List.length_replicate, List.length_nil] at hlen
    exact absurd hlen (by norm_num)
  unfold buildCmdline specCmdline at hEq
  rw [if_pos hb, if_neg hb] at hEq
  have hlen := congrArg List.length hEq
  simp only [List.length_take, List.length_cons, List.length_append,
    List.length_replicate, List.length_nil, CMD_BUF_SIZE] at hlen
  omega

/-- C2: the code evaluated at the failing input.  One non-empty argument
`C:\params.txt`, with a readable two-line parameter file at exactly that
path: the program never opens the file — it copies the argument into
`exe_path`, finds it non-empty, and launches `C:\params.txt` itself
(working directory `C:`).  The claim (and the program's own usage comment)
says the two lines of the file should have been read instead. -/
theorem single_arg_treated_as_exe :
    runMain
      ⟨none,
        fun p =>
          if p = "C:\\params.txt".toList then
            some "C:\\App\\Foo.exe\nC:\\db.fdb\n".toList
          else none,
        fun _ _ _ => true⟩
      ["C:\\params.txt".toList] =
      Outcome.launched "C:\\params.txt".toList "\"C:\\params.txt\"".toList
        (some "C:".toList) := by
  rfl

/-- C3 (amended): for a non-empty executable path containing no separator,
the derived working directory is the path itself (truncated to
`MAX_PATH - 1` characters by the `work_dir` buffer), and it IS passed to
`CreateProcessA` — the working directory is not left unset and the current
directory is not inherited. -/
theorem no_sep_workdir_set (exe db : CStr) (hne : exe ≠ [])
    (hsep : exe.any isSep = false) :
    launchOf exe db =
      Outcome.launched exe (buildCmdline exe db)
        (some (exe.take (MAX_PATH - 1))) := by
  have hall : ∀ c ∈ exe.take (MAX_PATH - 1), isSep c = false := fun c hc =>
    Bool.eq_false_iff.2 (List.any_eq_false.1 hsep c (List.take_subset _ _ hc))
  have hdir : deriveWorkDir exe = exe.take (MAX_PATH - 1) := by
    unfold deriveWorkDir dirname_inplace
    rw [lastSep_eq_none _ hall]
  have htake : exe.take (MAX_PATH - 1) ≠ [] := by
    intro h
    rcases List.take_eq_nil_iff.1 h with h259 | hnil
    · norm_num [MAX_PATH] at h259
    · exact hne hnil
  unfold launchOf wdOpt
  rw [hdir, if_neg htake]

/-- C3 witness: `Foo.exe` launches with working directory `Foo.exe`. -/
theorem no_sep_workdir_set_w :
    launchOf "Foo.exe".toList [] =
      Outcome.launched "Foo.exe".toList (buildCmdline "Foo.exe".toList [])
        (some (("Foo.exe".toList).take (MAX_PATH - 1))) :=
  no_sep_workdir_set _ _ (by decide) (by decide)

/-- C3 counterexample: invoked with the single argument `Foo.exe` (no
separator), the launch passes working directory `Foo.exe` — `some`, not
`none` — so the working directory is not left unset as claimed. -/
theorem no_sep_workdir_cex :
    runMain ⟨none, fun _ => none, fun _ _ _ => true⟩ ["Foo.exe".toList] =
      Outcome.launched "Foo.exe".toList "\"Foo.exe\"".toList
        (some "Foo.exe".toList) ∧
    (some ("Foo.exe".toList) : Option CStr) ≠ none :=
  ⟨rfl, by simp⟩

/-- C4 (amended): for an executable path that contains a separator and is
short enough to survive the `MAX_PATH`-byte `work_dir` buffer (at most 259
characters), the derived working directory is exactly the path up to,
excluding, its final separator; a longer path is first truncated to 259
characters and the directory derives from that truncation. -/
theorem workdir_eq_strip (exe : CStr) (h : exe.any isSep = true)
    (hlen : exe.length ≤ MAX_PATH - 1) :
    deriveWorkDir exe = stripLastComponent exe := by
  unfold deriveWorkDir
  rw [List.take_of_length_le hlen]
  exact dirname_eq_strip exe h

/-- C4 witness: `C:\Apps\Foo\Foo.exe` yields working directory
`C:\Apps\Foo`, as the spec's example states. -/
theorem workdir_eq_strip_w :
    deriveWorkDir "C:\\Apps\\Foo\\Foo.exe".toList =
      stripLastComponent "C:\\Apps\\Foo\\Foo.exe".toList ∧
    stripLastComponent "C:\\Apps\\Foo\\Foo.exe".toList = "C:\\Apps\\Foo".toList :=
  ⟨workdir_eq_strip _ (by decide) (by decide), by decide⟩

/-- C4 counterexample: a 261-character path made of 260 `a`s and a final
separator.  The claimed prefix up to the final separator has 260
characters, but `work_dir` is a `MAX_PATH = 260`-byte buffer, so `strncpy`
keeps only the first 259 characters (no separator survives) and the derived
directory is the 259-character truncation instead. -/
theorem workdir_trunc_cex :
    ((List.replicate 260 'a' ++ ['/'] : CStr).any isSep = true) ∧
    deriveWorkDir (List.replicate 260 'a' ++ ['/']) ≠
      stripLastComponent (List.replicate 260 'a' ++ ['/']) := by
  constructor
  · exact List.any_eq_true.2
      ⟨'/', List.mem_append_right _ (List.mem_singleton.2 rfl), by decide⟩
  · have h1 : deriveWorkDir (List.replicate 260 'a' ++ ['/']) =
        List.replicate 259 'a' := by
      unfold deriveWorkDir
      have ht : (List.replicate 260 'a' ++ ['/'] : CStr).take (MAX_PATH - 1) =
          List.replicate 259 'a' := by
        rw [show (260 : Nat) = 259 + 1 from rfl, List.replicate_add,
          List.append_assoc,
          show (MAX_PATH - 1 : Nat) = (List.replicate 259 'a').length by
            rw [List.length_replicate]; decide]
        exact List.take_left _ _
      rw [ht]
      unfold dirname_inplace
      rw [lastSep_eq_none _
        (fun c hc => by rw [List.eq_of_mem_replicate hc]; decide)]
    have h2 : stripLastComponent (List.replicate 260 'a' ++ ['/']) =
        List.replicate 260 'a' := by
      unfold stripLastComponent
      rw [List.reverse_append]
      simp only [List.reverse_cons, List.reverse_nil, List.nil_append,
        List.reverse_replicate, List.singleton_append]
      rw [List.dropWhile_cons, if_neg (by decide)]
      rw [List.reverse_cons, List.reverse_replicate, List.dropLast_concat]
    rw [h1, h2]
    intro hEq
    have hlen := congrArg List.length hEq
    simp only [List.length_replicate] at hlen
    omega

/-- C5 (amended): with exactly one command-line argument, the parameter file
is only consulted when the argument is empty: an empty argument exits with
code 1 (the empty path cannot be opened); a non-empty argument is itself
launched as the executable — the parameter file is never read — and the
exit code is 1 exactly when that launch fails, so it can be 0 even though
no usable parameter file exists. -/
theorem one_arg_exit (env : Env) (a : CStr) (hfs : env.fs [] = none) :
    (a = [] → exitCode env [a] = 1) ∧
    (a ≠ [] →
      exitCode env [a] =
        if env.spawnOk (a.take (PARAMS_BUF_SIZE - 1))
            (buildCmdline (a.take (PARAMS_BUF_SIZE - 1)) [])
            (wdOpt (a.take (PARAMS_BUF_SIZE - 1))) then 0 else 1) := by
  constructor
  · intro ha
    subst ha
    simp [exitCode, runMain, resolveParams, paramPath, argExe, hfs]
  · intro ha
    have htake : a.take (PARAMS_BUF_SIZE - 1) ≠ [] := by
      intro h
      rcases List.take_eq_nil_iff.1 h with h0 | hnil
      · norm_num [PARAMS_BUF_SIZE] at h0
      · exact ha hnil
    have hrun : runMain env [a] = launchOf (a.take (PARAMS_BUF_SIZE - 1)) [] := by
      unfold runMain resolveParams
      simp only [argExe, argDb]
      rw [if_pos htake]
      exact if_neg htake
    unfold exitCode
    rw [hrun]
    rfl

/-- C5 witness: one non-empty argument, nothing openable, launch fails:
exit code 1. -/
theorem one_arg_exit_w :
    exitCode ⟨none, fun _ => none, fun _ _ _ => false⟩ [['X']] = 1 := by
  have h := (one_arg_exit ⟨none, fun _ => none, fun _ _ _ => false⟩ ['X'] rfl).2
    (by decide)
  simpa using h

/-- C5 counterexample: one argument `C:\Tiny.exe`; every file on the system
reads back as the single line `MZ`, so no usable (two-line) parameter file
exists anywhere, yet the argument is launched as the executable, the launch
succeeds, and the exit code is 0, not 1. -/
theorem one_arg_exit_cex :
    readParams "MZ".toList = none ∧
    exitCode ⟨none, fun _ => some "MZ".toList, fun _ _ _ => true⟩
      ["C:\\Tiny.exe".toList] = 0 :=
  ⟨rfl, rfl⟩

/-- C6: with no command-line arguments, if `APPDATA` is unset or the default
parameter file cannot be opened, the program exits with code 1 and no
process launch is attempted. -/
theorem default_missing_exit1 (env : Env)
    (h : ∀ p, default_params_path env.appdata = some p → env.fs p = none) :
    runMain env [] = Outcome.exitConfig ∧ exitCode env [] = 1 := by
  have hpp : paramPath env [] = default_params_path env.appdata := rfl
  have hres : resolveParams env [] = none := by
    unfold resolveParams
    rw [if_neg (show ¬ argExe ([] : List CStr) ≠ [] from not_not_intro rfl), hpp]
    rcases hd : default_params_path env.appdata with _ | p
    · rfl
    · show (match env.fs p with
        | none => none
        | some content => readParams content) = none
      rw [h p hd]
  have hrun : runMain env [] = Outcome.exitConfig := by
    unfold runMain
    rw [hres]
  refine ⟨hrun, ?_⟩
  unfold exitCode
  rw [hrun]

/-- C6 witness: `APPDATA` unset, nothing openable: exit code 1, no launch. -/
theorem default_missing_exit1_w :
    runMain ⟨none, fun _ => none, fun _ _ _ => false⟩ [] = Outcome.exitConfig ∧
    exitCode ⟨none, fun _ => none, fun _ _ _ => false⟩ [] = 1 :=
  default_missing_exit1 _ (fun p hp => by simp [default_params_path] at hp)

/-- C7 (amended): in file mode, if the parameter file holds fewer than two
lines (no newline before its final character) and that single line fits the
2048-byte `fgets` buffer, the program exits with code 1 and no process is
started.  (A single over-long line is instead split by the buffer into two
reads and treated as two lines — see the counterexample.) -/
theorem short_file_config_error (env : Env) (apd content : CStr)
    (ha : env.appdata = some apd)
    (hf : env.fs ((apd ++ DEFAULT_SUFFIX).take (MAX_PATH - 1)) = some content)
    (h1 : noInnerNewline content = true)
    (h2 : content.length ≤ PARAMS_BUF_SIZE - 1) :
    runMain env [] = Outcome.exitConfig ∧ exitCode env [] = 1 := by
  have hread : readParams content = none := by
    cases content with
    | nil => rfl
    | cons c cs =>
      have hfg : fgets (c :: cs) = some ((c :: cs), []) := by
        show some (fgetsAux (PARAMS_BUF_SIZE - 1) (c :: cs)) = some ((c :: cs), [])
        rw [fgetsAux_short (c :: cs) (PARAMS_BUF_SIZE - 1) h2 h1]
      exact readParams_none2 (c :: cs) (c :: cs) [] hfg rfl
  have hpp : paramPath env [] = some ((apd ++ DEFAULT_SUFFIX).take (MAX_PATH - 1)) := by
    show default_params_path env.appdata = _
    rw [ha]
    rfl
  have hres : resolveParams env [] = none :=
    (resolve_file env [] _ content rfl hpp hf).trans hread
  have hrun : runMain env [] = Outcome.exitConfig := by
    unfold runMain
    rw [hres]
  refine ⟨hrun, ?_⟩
  unfold exitCode
  rw [hrun]

/-- C7 witness: a one-line default parameter file (`X` plus newline): exit
code 1 and no launch. -/
theorem short_file_config_error_w :
    runMain ⟨some [], fun _ => some "X\n".toList, fun _ _ _ => true⟩ [] =
      Outcome.exitConfig ∧
    exitCode ⟨some [], fun _ => some "X\n".toList, fun _ _ _ => true⟩ [] = 1 :=
  short_file_config_error _ [] "X\n".toList rfl rfl (by decide) (by decide)

/-- C7 counterexample: the default parameter file is one single line of 2048
`a`s — fewer than two lines — yet the program does NOT fail: the first
`fgets` stops after 2047 characters, the leftover `a` is read as the
"second line", and the program launches (exit code 0, `--db "a"`
included). -/
theorem long_line_cex :
    runMain ⟨some [], fun _ => some (List.replicate 2048 'a'), fun _ _ _ => true⟩
        [] ≠ Outcome.exitConfig ∧
    exitCode ⟨some [], fun _ => some (List.replicate 2048 'a'), fun _ _ _ => true⟩
        [] = 0 := by
  have hnl : ¬ 'a' = '\n' := by decide
  have haux : fgetsAux (PARAMS_BUF_SIZE - 1) (List.replicate 2048 'a') =
      (List.replicate 2047 'a', ['a']) := by
    rw [fgetsAux_replicate 'a' hnl,
      show min (PARAMS_BUF_SIZE - 1) 2048 = 2047 from by norm_num [PARAMS_BUF_SIZE],
      show (2048 - (PARAMS_BUF_SIZE - 1) : Nat) = 1 from by norm_num [PARAMS_BUF_SIZE],
      List.replicate_one]
  have hcons : (List.replicate 2048 'a' : CStr) = 'a' :: List.replicate 2047 'a' := by
    rw [show (2048 : Nat) = 2047 + 1 from rfl, List.replicate_succ]
  have hfg1 : fgets (List.replicate 2048 'a') =
      some (List.replicate 2047 'a', ['a']) := by
    rw [hcons]
    show some (fgetsAux (PARAMS_BUF_SIZE - 1) ('a' :: List.replicate 2047 'a')) =
      some (List.replicate 2047 'a', ['a'])
    rw [← hcons, haux]
  have htrim : trim_crlf (List.replicate 2047 'a') = List.replicate 2047 'a' :=
    trim_crlf_of_forall _
      (fun c hc => by rw [List.eq_of_mem_replicate hc]; exact ⟨by decide, by decide⟩)
  have hread : readParams (List.replicate 2048 'a') =
      some (List.replicate 2047 'a', ['a']) := by
    rw [readParams_some _ _ _ _ _ hfg1 (show fgets ['a'] = some (['a'], []) from rfl),
      htrim, show trim_crlf ['a'] = ['a'] from rfl]
  have hne2047 : (List.replicate 2047 'a' : CStr) ≠ [] := by
    intro h
    have hlen := congrArg List.length h
    rw [List.length_replicate, List.length_nil] at hlen
    exact absurd hlen (by norm_num)
  have hres : resolveParams
      ⟨some [], fun _ => some (List.replicate 2048 'a'), fun _ _ _ => true⟩ [] =
      some (List.replicate 2047 'a', ['a']) :=
    (resolve_file
      ⟨some [], fun _ => some (List.replicate 2048 'a'), fun _ _ _ => true⟩ []
      ((([] : CStr) ++ DEFAULT_SUFFIX).take (MAX_PATH - 1))
      (List.replicate 2048 'a') rfl rfl rfl).trans hread
  have hrun : runMain
      ⟨some [], fun _ => some (List.replicate 2048 'a'), fun _ _ _ => true⟩ [] =
      launchOf (List.replicate 2047 'a') ['a'] := by
    unfold runMain
    rw [hres]
    exact if_neg hne2047
  constructor
  · intro h
    rw [hrun] at h
    exact Outcome.noConfusion h
  · unfold exitCode
    rw [hrun]
    rfl

/-- C8 (amended): `trim_crlf` cuts each line at its FIRST CR or LF character;
for every line whose CR/LF characters occur only as a trailing suffix (in
particular every `fgets` line without an embedded bare CR), this coincides
with stripping exactly the trailing CR/LF suffix, preserving all preceding
characters unchanged. -/
theorem trim_trailing (l s : CStr) (hl : ∀ c ∈ l, c ≠ '\r' ∧ c ≠ '\n')
    (hs : ∀ c ∈ s, c = '\r' ∨ c = '\n') :
    trim_crlf (l ++ s) = l ∧ trim_crlf (l ++ s) = stripTrailingCRLF (l ++ s) := by
  have h1 : trim_crlf (l ++ s) = l := trim_crlf_append l s hl hs
  refine ⟨h1, h1.trans ?_⟩
  unfold stripTrailingCRLF
  rw [List.reverse_append,
    dropWhile_append_all crlfB s.reverse l.reverse
      (fun x hx => by
        rcases hs x (List.mem_reverse.1 hx) with h | h <;> simp [crlfB, h])]
  have hdw : List.dropWhile crlfB l.reverse = l.reverse := by
    cases hrev : l.reverse with
    | nil => rfl
    | cons x xs =>
      have hx : x ∈ l := List.mem_reverse.1 (hrev ▸ List.mem_cons_self x xs)
      have hnx := hl x hx
      rw [List.dropWhile_cons, if_neg (by simp [crlfB, hnx.1, hnx.2])]
  rw [hdw, List.reverse_reverse]

/-- C8 witness: the `fgets` line `C:\Foo.exe` + CRLF trims to `C:\Foo.exe`,
which is exactly the trailing-CR/LF strip. -/
theorem trim_trailing_w :
    trim_crlf ("C:\\Foo.exe".toList ++ "\r\n".toList) = "C:\\Foo.exe".toList ∧
    trim_crlf ("C:\\Foo.exe".toList ++ "\r\n".toList) =
      stripTrailingCRLF ("C:\\Foo.exe".toList ++ "\r\n".toList) :=
  trim_trailing _ _ (by decide) (by decide)

/-- C8 counterexample: the line `a<CR>b<LF>` (readable by `fgets` from a file
holding a bare CR) is cut by `trim_crlf` at the embedded CR, yielding `a`,
whereas stripping only the trailing CR/LF suffix would preserve `a<CR>b`. -/
theorem trim_embedded_cr_cex :
    trim_crlf "a\rb\n".toList = "a".toList ∧
    stripTrailingCRLF "a\rb\n".toList = "a\rb".toList ∧
    trim_crlf "a\rb\n".toList ≠ stripTrailingCRLF "a\rb\n".toList := by
  decide

/-- Helper for C9: a non-empty argument survives `strncpy` truncation
non-empty. -/
theorem take_params_ne_nil (a : CStr) (ha : a ≠ []) :
    a.take (PARAMS_BUF_SIZE - 1) ≠ [] := by
  intro h
  rcases List.take_eq_nil_iff.1 h with h0 | hnil
  · norm_num [PARAMS_BUF_SIZE] at h0
  · exact ha hnil

/-- Helper for C9: the first component returned by `fgets` fits the buffer. -/
theorem fgets_fst_length (content l rest : CStr)
    (h : fgets content = some (l, rest)) : l.length ≤ PARAMS_BUF_SIZE - 1 := by
  cases content with
  | nil => cases h
  | cons c cs =>
    have hl : (fgetsAux (PARAMS_BUF_SIZE - 1) (c :: cs)).1 = l :=
      congrArg Prod.fst (Option.some.inj h)
    rw [← hl]
    exact fgetsAux_fst_length _ _

/-- C9: no fixed-size buffer is overrun: every resolved executable and
secondary path fits in `PARAMS_BUF_SIZE - 1 = 2047` characters, every
constructed command line fits in `CMD_BUF_SIZE - 1 = 4095` characters, and
an over-long first argument is silently truncated to its first 2047
characters rather than rejected — resolution still succeeds on it. -/
theorem buffer_bounds :
    (∀ env argv exe db, resolveParams env argv = some (exe, db) →
        exe.length ≤ PARAMS_BUF_SIZE - 1 ∧ db.length ≤ PARAMS_BUF_SIZE - 1) ∧
    (∀ exe db, (buildCmdline exe db).length ≤ CMD_BUF_SIZE - 1) ∧
    (∀ env a rest, a ≠ [] →
        resolveParams env (a :: rest) =
          some (a.take (PARAMS_BUF_SIZE - 1), argDb (a :: rest))) := by
  refine ⟨?_, ?_, ?_⟩
  · intro env argv exe db hres
    have hA : ∀ v : List CStr, (argExe v).length ≤ PARAMS_BUF_SIZE - 1 := by
      intro v
      cases v with
      | nil => simp [argExe]
      | cons a t => exact List.length_take_le _ _
    have hB : ∀ v : List CStr, (argDb v).length ≤ PARAMS_BUF_SIZE - 1 := by
      intro v
      cases v with
      | nil => simp [argDb]
      | cons a t =>
        cases t with
        | nil => simp [argDb]
        | cons b t2 => exact List.length_take_le _ _
    by_cases hex : argExe argv ≠ []
    · rw [resolve_argmode env argv hex] at hres
      have hp := Option.some.inj hres
      have h1 : argExe argv = exe := congrArg Prod.fst hp
      have h2 : argDb argv = db := congrArg Prod.snd hp
      rw [← h1, ← h2]
      exact ⟨hA argv, hB argv⟩
    · have hex' : argExe argv = [] := not_not.1 hex
      rcases hpp : paramPath env argv with _ | p
      · rw [resolve_pp_none env argv hex' hpp] at hres; cases hres
      · rcases hfs : env.fs p with _ | content
        · rw [resolve_fs_none env argv p hex' hpp hfs] at hres; cases hres
        · rw [resolve_file env argv p content hex' hpp hfs] at hres
          rcases hf1 : fgets content with _ | ⟨l1, rest1⟩
          · rw [readParams_none1 content hf1] at hres; cases hres
          · rcases hf2 : fgets rest1 with _ | ⟨l2, rest2⟩
            · rw [readParams_none2 content l1 rest1 hf1 hf2] at hres; cases hres
            · rw [readParams_some content l1 rest1 l2 rest2 hf1 hf2] at hres
              have hp := Option.some.inj hres
              have h1 : trim_crlf l1 = exe := congrArg Prod.fst hp
              have h2 : trim_crlf l2 = db := congrArg Prod.snd hp
              rw [← h1, ← h2]
              exact ⟨le_trans (trim_crlf_length_le l1) (fgets_fst_length _ _ _ hf1),
                le_trans (trim_crlf_length_le l2) (fgets_fst_length _ _ _ hf2)⟩
  · intro exe db
    unfold buildCmdline
    by_cases h : db = []
    · rw [if_neg (not_not_intro h)]
      exact List.length_take_le _ _
    · rw [if_pos h]
      exact List.length_take_le _ _
  · intro env a rest ha
    unfold resolveParams
    rw [if_pos (show argExe (a :: rest) ≠ [] from take_params_ne_nil a ha)]
    rfl

/-- C9 witness: a concrete resolution (one-argument invocation) satisfies the
buffer bounds. -/
theorem buffer_bounds_w :
    (['X'] : CStr).length ≤ PARAMS_BUF_SIZE - 1 ∧
    ([] : CStr).length ≤ PARAMS_BUF_SIZE - 1 :=
  buffer_bounds.1 ⟨none, fun _ => none, fun _ _ _ => false⟩ [['X']] ['X'] [] rfl

/-- C10: with an empty first command-line argument, the program falls through
to file mode with the EMPTY string as the parameter-file path (not the
default application-data path); the empty path cannot be opened, so it
exits with code 1 without launching anything. -/
theorem empty_arg_file_mode (env : Env) (rest : List CStr)
    (hfs : env.fs [] = none) :
    paramPath env ([] :: rest) = some [] ∧
    runMain env ([] :: rest) = Outcome.exitConfig ∧
    exitCode env ([] :: rest) = 1 := by
  have hres : resolveParams env ([] :: rest) = none := by
    unfold resolveParams
    rw [if_neg (show ¬ argExe (([] : CStr) :: rest) ≠ [] from not_not_intro rfl)]
    show (match env.fs [] with
      | none => none
      | some content => readParams content) = none
    rw [hfs]
  have hrun : runMain env ([] :: rest) = Outcome.exitConfig := by
    unfold runMain
    rw [hres]
  refine ⟨rfl, hrun, ?_⟩
  unfold exitCode
  rw [hrun]

/-- C10 witness: `argv = [""]`, empty path unopenable: path is `""`, exit
code 1, no launch. -/
theorem empty_arg_file_mode_w :
    paramPath ⟨none, fun _ => none, fun _ _ _ => true⟩ ([] :: []) = some [] ∧
    runMain ⟨none, fun _ => none, fun _ _ _ => true⟩ ([] :: []) =
      Outcome.exitConfig ∧
    exitCode ⟨none, fun _ => none, fun _ _ _ => true⟩ ([] :: []) = 1 :=
  empty_arg_file_mode _ [] rfl

end RestartHelper
